import Mathlib

/-!
Verification of the routing and reorg-guarded log-query core of a blockchain
RPC gateway (packages `rpc/handler` and `node`).

The embedding follows the Go source closely:
* `rpc/handler/eth_logs_v2.go`: `EthLogsApiHandlerV2.GetLogs`,
  `getLogsReorgGuard`, `splitLogFilter`, `splitLogFilterByBlockHash`,
  `splitLogFilterByBlockRange`.
* `node/manager.go`: `Manager` with `Add`, `Remove`, `Get`, `List`,
  `Distribute`, `Route`.

External collaborators (the MySQL store, the full-node RPC client, the
consistent-hash library, the repartition resolver and URL normalisation
helpers) are modelled as oracles or small spec-modelled functions; effectful
calls whose results may change between invocations (reorg-version reads,
per-attempt query outcomes) are modelled as streams indexed by call count,
and the unbounded retry loop is given explicit fuel, returning `none` when
the fuel is exhausted before the loop exits.
-/

/-- Error values surfaced by the log-query engine. `unknownBlock` models
the error constructed by `errors.New("unknown block")`; `getLogsTimeout`
models the distinct named error `store.ErrGetLogsTimeout`; `other` stands
for any upstream store or node error. -/
inductive Err where
  | unknownBlock : Err
  | getLogsTimeout : Err
  | other : String → Err
deriving DecidableEq, Repr

/-- Common event-log representation (`types.Log`), reduced to the fields the
claims mention: the block number and an opaque payload. -/
structure Log where
  blockNumber : Nat
  payload : Nat
deriving DecidableEq, Repr

/-- The `web3go` `types.FilterQuery`: either a block-hash query or a block
range query. Block hashes are opaque naturals; `fromBlock`/`toBlock` are
`types.BlockNumber` (an int64 where negative values are symbolic tags). -/
structure FilterQuery where
  blockHash : Option Nat := none
  fromBlock : Option Int := none
  toBlock : Option Int := none
  addresses : List Nat := []
  topics : List (List Nat) := []
deriving DecidableEq, Repr

/-- Modelled from the spec: `store.LogFilterV2` (not under src/) is the DB
sub-filter produced by `store.ParseEthLogFilterV2`; per the spec it covers
exactly the given block range and carries the filter criteria and network id. -/
structure LogFilterV2 where
  blockFrom : Nat
  blockTo : Nat
  addresses : List Nat
  topics : List (List Nat)
  networkId : Nat
deriving DecidableEq, Repr

/-- Modelled from the spec: `store.ParseEthLogFilterV2(from, to, filter, nid)`
(not under src/) packages the block range `[from, to]` together with the
original filter's criteria into a DB sub-filter. -/
def ParseEthLogFilterV2 (blockFrom blockTo : Nat) (filter : FilterQuery)
    (networkId : Nat) : LogFilterV2 :=
  { blockFrom := blockFrom, blockTo := blockTo, addresses := filter.addresses,
    topics := filter.topics, networkId := networkId }

/-- A persisted log record as returned by `mysql.MysqlStore.GetLogsV2`; the
conversion chain `v.ToCfxLog()` followed by `ethbridge.ConvertLog` is external
library code, modelled as carrying the converted common-representation log. -/
structure StoredLog where
  asLog : Log
deriving DecidableEq, Repr

/-- Models the external conversion `*ethbridge.ConvertLog(v.ToCfxLog())`. -/
def convertStoredLog (v : StoredLog) : Log := v.asLog

/-- Oracle model of `mysql.MysqlStore` (an external collaborator).
`reorgVersions i` is the result of the `(i+1)`-th `GetReorgVersion()` call;
`maxEpoch` models `MaxEpoch() (uint64, bool, error)`;
`getLogsV2` models `GetLogsV2(ctx, filter)`. -/
structure MysqlStore where
  reorgVersions : Nat → Except Err Nat
  maxEpoch : Except Err (Nat × Bool)
  getLogsV2 : LogFilterV2 → Except Err (List StoredLog)

/-- Oracle model of the full-node client `client.RpcEthClient`:
`blockByHash h` models `BlockByHash(h, false)` returning the block's number
(or `none` for a nil block); `logs` models the `eth_getLogs` call. -/
structure RpcEthClient where
  blockByHash : Nat → Except Err (Option Nat)
  logs : FilterQuery → Except Err (List Log)

/-- The handler state: the store and the EVM-space network id. -/
structure EthLogsApiHandlerV2 where
  ms : MysqlStore
  networkId : Nat

/-- The Go triple `([]types.Log, bool, error)` returned by `GetLogs` and
`getLogsReorgGuard`; a nil slice is the empty list. -/
structure GetLogsResult where
  logs : List Log
  hitStore : Bool
  err : Option Err
deriving DecidableEq, Repr

/-- Embedding of `splitLogFilterByBlockRange` (eth_logs_v2.go:146-183). -/
def splitLogFilterByBlockRange (handler : EthLogsApiHandlerV2)
    (filter : FilterQuery) (maxBlock : Nat) :
    Except Err (Option LogFilterV2 × Option FilterQuery) :=
  match filter.fromBlock, filter.toBlock with
  | some fb, some tb =>
    if fb < 0 ∨ tb < 0 then
      .ok (none, some filter)
    else
      let blockFrom := fb.toNat
      let blockTo := tb.toNat
      -- no data in database
      if blockFrom > maxBlock then
        .ok (none, some filter)
      -- all data in database
      else if blockTo ≤ maxBlock then
        .ok (some (ParseEthLogFilterV2 blockFrom blockTo filter handler.networkId), none)
      -- otherwise, partial data in database
      else
        .ok (some (ParseEthLogFilterV2 blockFrom maxBlock filter handler.networkId),
          some { blockHash := none,
                 fromBlock := some ((maxBlock + 1 : Nat) : Int),
                 toBlock := filter.toBlock,
                 addresses := filter.addresses,
                 topics := filter.topics })
  | _, _ => .ok (none, some filter)

/-- Embedding of `splitLogFilterByBlockHash` (eth_logs_v2.go:122-144); the Go
function dereferences `*filter.BlockHash`, which its caller guarantees
non-nil, modelled with `getD`. -/
def splitLogFilterByBlockHash (handler : EthLogsApiHandlerV2)
    (eth : RpcEthClient) (filter : FilterQuery) (maxBlock : Nat) :
    Except Err (Option LogFilterV2 × Option FilterQuery) :=
  match eth.blockByHash (filter.blockHash.getD 0) with
  | .error e => .error e
  | .ok none => .error .unknownBlock
  | .ok (some bn) =>
    if bn > maxBlock then
      .ok (none, some filter)
    else
      .ok (some (ParseEthLogFilterV2 bn bn filter handler.networkId), none)

/-- Embedding of `splitLogFilter` (eth_logs_v2.go:102-120). -/
def splitLogFilter (handler : EthLogsApiHandlerV2) (eth : RpcEthClient)
    (filter : FilterQuery) :
    Except Err (Option LogFilterV2 × Option FilterQuery) :=
  match handler.ms.maxEpoch with
  | .error e => .error e
  | .ok (maxBlock, ok) =>
    if !ok then
      .ok (none, some filter)
    else if filter.blockHash.isSome then
      splitLogFilterByBlockHash handler eth filter maxBlock
    else
      splitLogFilterByBlockRange handler filter maxBlock

/-- Embedding of `getLogsReorgGuard` (eth_logs_v2.go:62-100): split the
filter, query the database portion, query the full-node portion, concatenate
DB logs before node logs, and report whether the store was hit. -/
def getLogsReorgGuard (handler : EthLogsApiHandlerV2) (eth : RpcEthClient)
    (filter : FilterQuery) : GetLogsResult :=
  match splitLogFilter handler eth filter with
  | .error e => ⟨[], false, some e⟩
  | .ok (dbFilter, fnFilter) =>
    let dbStep : Except Err (List Log) :=
      match dbFilter with
      | none => .ok []
      | some f =>
        match handler.ms.getLogsV2 f with
        | .error e => .error e
        | .ok dbLogs => .ok (dbLogs.map convertStoredLog)
    match dbStep with
    | .error e => ⟨[], false, some e⟩
    | .ok logs =>
      match fnFilter with
      | none => ⟨logs, dbFilter.isSome, none⟩
      | some f =>
        match eth.logs f with
        | .error e => ⟨[], false, some e⟩
        | .ok fnLogs => ⟨logs ++ fnLogs, dbFilter.isSome, none⟩

/-- The retry loop of `GetLogs` (eth_logs_v2.go:34-58), as a driver over
per-attempt outcome streams: `guard i` is the result of the `(i+1)`-th
`getLogsReorgGuard` call, `versions i` the reorg version read after it, and
`timedOut i` whether `timeoutCtx.Done()` fires at the check after it. The
result pairs the Go return triple with the number of attempts performed;
`none` means the fuel ran out before the loop exited. -/
def getLogsLoop (guard : Nat → GetLogsResult) (versions : Nat → Except Err Nat)
    (timedOut : Nat → Bool) :
    Nat → Nat → Nat → Option (GetLogsResult × Nat)
  | _, _, 0 => none
  | lastReorgVersion, i, fuel + 1 =>
    let r := guard i
    match r.err with
    | some e => some (⟨[], false, some e⟩, i + 1)
    | none =>
      match versions i with
      | .error e => some (⟨[], false, some e⟩, i + 1)
      | .ok reorgVersion =>
        if reorgVersion = lastReorgVersion then
          some (⟨r.logs, r.hitStore, none⟩, i + 1)
        else if timedOut i then
          some (⟨[], false, some .getLogsTimeout⟩, i + 1)
        else
          getLogsLoop guard versions timedOut reorgVersion (i + 1) fuel

/-- Embedding of `GetLogs` (eth_logs_v2.go:20-60): read the reorg version,
then run the guarded query in a retry loop until the version stabilises or
the deadline elapses. Attempt outcomes are drawn from the handler's oracles
(constant across attempts in this pure model); the version stream is offset
by one because the first read happens before the loop. -/
def GetLogs (handler : EthLogsApiHandlerV2) (eth : RpcEthClient)
    (filter : FilterQuery) (timedOut : Nat → Bool) (fuel : Nat) :
    Option (GetLogsResult × Nat) :=
  match handler.ms.reorgVersions 0 with
  | .error e => some (⟨[], false, some e⟩, 0)
  | .ok lastReorgVersion =>
    getLogsLoop (fun _ => getLogsReorgGuard handler eth filter)
      (fun i => handler.ms.reorgVersions (i + 1)) timedOut
      lastReorgVersion 0 fuel

/-- Helper: whenever the split produces both a DB and a node sub-filter, the
DB range ends exactly one block below the node range's start (only the
straddling branch of the range split produces both). -/
theorem splitLogFilter_both_some_contiguous (handler : EthLogsApiHandlerV2)
    (eth : RpcEthClient) (filter : FilterQuery) (df : LogFilterV2)
    (ff : FilterQuery)
    (h : splitLogFilter handler eth filter = .ok (some df, some ff)) :
    ff.fromBlock = some ((df.blockTo + 1 : Nat) : Int) :=
  by
  rw [splitLogFilter] at h
  split at h
  · exact absurd h (by simp)
  · split at h
    · simp at h
    · split at h
      · rw [splitLogFilterByBlockHash] at h
        split at h
        · exact absurd h (by simp)
        · exact absurd h (by simp)
        · split at h
          · simp at h
          · simp at h
      · rw [splitLogFilterByBlockRange] at h
        split at h
        · split at h
          · simp at h
          · dsimp only at h
            split at h
            · simp at h
            · split at h
              · simp at h
              · simp only [Except.ok.injEq, Prod.mk.injEq, Option.some_inj] at h
                obtain ⟨hdf, hff⟩ := h
                subst hdf
                subst hff
                rfl
        · simp at h

/-- C4: when the split yields both a DB and a node sub-filter and both
sub-queries succeed, the merged result is exactly the DB-sourced logs
followed by the node-sourced logs (with the store hit flag set); the DB
range ends one block below the node range, so if each sub-result is
ascending and stays within its sub-filter's range, the concatenation is in
ascending block order. -/
theorem getLogsReorgGuard_concat_order (handler : EthLogsApiHandlerV2)
    (eth : RpcEthClient) (filter : FilterQuery) (df : LogFilterV2)
    (ff : FilterQuery) (dbStored : List StoredLog) (fnLogs : List Log)
    (hsplit : splitLogFilter handler eth filter = .ok (some df, some ff))
    (hdb : handler.ms.getLogsV2 df = .ok dbStored)
    (hfn : eth.logs ff = .ok fnLogs) :
    getLogsReorgGuard handler eth filter =
      ⟨dbStored.map convertStoredLog ++ fnLogs, true, none⟩ ∧
    ff.fromBlock = some ((df.blockTo + 1 : Nat) : Int) ∧
    ((dbStored.map convertStoredLog).Pairwise
        (fun a b => a.blockNumber ≤ b.blockNumber) →
      fnLogs.Pairwise (fun a b => a.blockNumber ≤ b.blockNumber) →
      (∀ l ∈ dbStored.map convertStoredLog, l.blockNumber ≤ df.blockTo) →
      (∀ l ∈ fnLogs, df.blockTo + 1 ≤ l.blockNumber) →
      (dbStored.map convertStoredLog ++ fnLogs).Pairwise
        (fun a b => a.blockNumber ≤ b.blockNumber)) :=
  by
  refine ⟨?_, splitLogFilter_both_some_contiguous handler eth filter df ff hsplit, ?_⟩
  · simp [getLogsReorgGuard, hsplit, hdb, hfn]
  · intro hdbs hfns hdble hfnge
    rw [List.pairwise_append]
    refine ⟨hdbs, hfns, ?_⟩
    intro a ha b hb
    have h1 := hdble a ha
    have h2 := hfnge b hb
    omega

/-- Witness for C4: boundary 5, DB logs at blocks 2 and 4, node logs at
blocks 6 and 8. -/
theorem getLogsReorgGuard_concat_order_witness :
    getLogsReorgGuard
      ⟨⟨fun _ => .ok 0, .ok (5, true),
        fun _ => .ok [⟨⟨2, 0⟩⟩, ⟨⟨4, 0⟩⟩]⟩, 1⟩
      ⟨fun _ => .ok none, fun _ => .ok [⟨6, 0⟩, ⟨8, 0⟩]⟩
      { blockHash := none, fromBlock := some 2, toBlock := some 8 } =
      ⟨[⟨2, 0⟩, ⟨4, 0⟩] ++ [⟨6, 0⟩, ⟨8, 0⟩], true, none⟩ ∧
    FilterQuery.fromBlock
      { blockHash := none, fromBlock := some ((5 + 1 : Nat) : Int),
        toBlock := some 8, addresses := [], topics := [] } =
      some ((5 + 1 : Nat) : Int) ∧
    ([⟨2, 0⟩, ⟨4, 0⟩] ++ [⟨6, 0⟩, ⟨8, 0⟩] : List Log).Pairwise
      (fun a b => a.blockNumber ≤ b.blockNumber) :=
  by
  have h := getLogsReorgGuard_concat_order
    ⟨⟨fun _ => .ok 0, .ok (5, true),
      fun _ => .ok [⟨⟨2, 0⟩⟩, ⟨⟨4, 0⟩⟩]⟩, 1⟩
    ⟨fun _ => .ok none, fun _ => .ok [⟨6, 0⟩, ⟨8, 0⟩]⟩
    { blockHash := none, fromBlock := some 2, toBlock := some 8 }
    (ParseEthLogFilterV2 2 5
      { blockHash := none, fromBlock := some 2, toBlock := some 8 } 1)
    { blockHash := none, fromBlock := some ((5 + 1 : Nat) : Int),
      toBlock := some 8, addresses := [], topics := [] }
    [⟨⟨2, 0⟩⟩, ⟨⟨4, 0⟩⟩] [⟨6, 0⟩, ⟨8, 0⟩] rfl rfl rfl
  exact ⟨h.1, h.2.1, h.2.2 (by decide) (by decide) (by decide) (by decide)⟩

/-! ## Node manager (node/manager.go) -/

/-- A full-node backend (`node.Node`); `NewNode` (node.go, not under src/) is
modelled from the spec as constructing an immutable name/url pair. -/
structure Node where
  name : String
  url : String
deriving DecidableEq, Repr

/-- Modelled from the spec: `NewNode(name, url, manager)` constructs a Node
with the given name and URL (health-probe machinery is out of scope). -/
def NewNode (name url : String) : Node := ⟨name, url⟩

/-- Modelled from the spec: `util.Url2NodeName` (not under src/) is a
deterministic, collision-free derivation of a node name from a URL; the
identity function is the simplest such normalisation. -/
def Url2NodeName (url : String) : String := url

/-- Modelled from the spec: the 64-bit non-cryptographic hash
`xxhash.Sum64` over a byte key, as a fold reduced modulo 2^64. -/
def xxhashSum64 (key : List Nat) : Nat :=
  key.foldl (fun acc b => (acc * 31 + b) % 2 ^ 64) 0

/-- Modelled from the spec: the consistent-hash library's
`hashRing.LocateKey` resolves a key to one of the current members and
returns nil exactly when the member set is empty; modelled as a
deterministic pick indexed by the key's hash. -/
def locateKey (members : List Node) (key : List Nat) : Option Node :=
  members.get? (xxhashSum64 key % members.length)

/-- The manager state (`node.Manager`): the name-keyed node map, the hash
ring's member list, the repartition resolver's hash-to-name cache (modelled
from the spec as an unbounded association list), the per-node epoch map and
the derived mid epoch. The `sync.RWMutex` serialises access and has no
functional content in this sequential model. -/
structure Manager where
  nodes : List (String × Node)
  hashRing : List Node
  resolver : List (Nat × String)
  nodeName2Epochs : List (String × Nat)
  midEpoch : Nat
deriving DecidableEq, Repr

/-- Embedding of `NewManagerWithRepartition` (manager.go:30-51): deduplicate
the URLs by derived name, build the node map and the ring's member list. -/
def NewManagerWithRepartition (urls : List String)
    (resolver : List (Nat × String)) : Manager :=
  let init : List (String × Node) × List Node := ([], [])
  let built := urls.foldl
    (fun acc url =>
      let nodeName := Url2NodeName url
      if (acc.1.lookup nodeName).isSome then acc
      else
        let node := NewNode nodeName url
        ((nodeName, node) :: acc.1, acc.2 ++ [node]))
    init
  { nodes := built.1, hashRing := built.2, resolver := resolver,
    nodeName2Epochs := [], midEpoch := 0 }

/-- Embedding of `NewManager` (manager.go:26-28): the noop resolver caches
nothing, modelled as the empty cache. -/
def NewManager (urls : List String) : Manager :=
  NewManagerWithRepartition urls []

/-- Embedding of `Manager.Add` (manager.go:53-63). -/
def Manager.add (m : Manager) (url : String) : Manager :=
  let nodeName := Url2NodeName url
  if (m.nodes.lookup nodeName).isSome then m
  else
    let node := NewNode nodeName url
    { m with nodes := (nodeName, node) :: m.nodes,
             hashRing := m.hashRing ++ [node] }

/-- Embedding of `Manager.Remove` (manager.go:65-76); `node.Close()` releases
external resources and has no state content here. -/
def Manager.remove (m : Manager) (url : String) : Manager :=
  let nodeName := Url2NodeName url
  if (m.nodes.lookup nodeName).isSome then
    { m with nodes := m.nodes.filter (fun p => p.1 ≠ nodeName),
             nodeName2Epochs := m.nodeName2Epochs.filter (fun p => p.1 ≠ nodeName),
             hashRing := m.hashRing.filter (fun n => n.name ≠ nodeName) }
  else m

/-- Embedding of `Manager.Get` (manager.go:78-84). -/
def Manager.get (m : Manager) (url : String) : Option Node :=
  m.nodes.lookup (Url2NodeName url)

/-- Embedding of `Manager.List` (manager.go:86-97): an unordered snapshot of
the node map's values, here in the association list's order. -/
def Manager.list (m : Manager) : List Node :=
  m.nodes.map Prod.snd

/-- Embedding of `Manager.Distribute` (manager.go:112-133): hash the key; a
cached repartition mapping wins and is answered from the node map (possibly
nil); otherwise locate via the ring, caching the resolved name. Returns the
selected node together with the updated manager (the resolver cache is the
only mutated state). -/
def Manager.distribute (m : Manager) (key : List Nat) : Option Node × Manager :=
  let k := xxhashSum64 key
  match m.resolver.lookup k with
  | some name => (m.nodes.lookup name, m)
  | none =>
    match locateKey m.hashRing key with
    | none => (none, m)
    | some node =>
      (some node, { m with resolver := (k, node.name) :: m.resolver })

/-- Embedding of `Manager.Route` (manager.go:136-142). -/
def Manager.route (m : Manager) (key : List Nat) : String × Manager :=
  match m.distribute key with
  | (some n, m') => (n.url, m')
  | (none, m') => ("", m')

/-- The two-collection invariant of the spec: every name in the node map is
the name of a ring member, and every ring member's name keys the node map. -/
def Manager.inSync (m : Manager) : Prop :=
  (∀ p ∈ m.nodes, ∃ n ∈ m.hashRing, n.name = p.1) ∧
  (∀ n ∈ m.hashRing, ∃ p ∈ m.nodes, p.1 = n.name)

instance (m : Manager) : Decidable m.inSync := by
  unfold Manager.inSync; infer_instance

/-! ## Claims about the node manager -/

/-- C5: a cached repartition mapping for the key's 64-bit hash makes
`Distribute` answer from the node map by the cached name, leaving the state
unchanged; the answer is the same for any hash-ring contents (the ring is
bypassed), and it is nil — not an error — when the cached node has been
removed from the map. -/
theorem distribute_repartition_override (nodes : List (String × Node))
    (ring ring' : List Node) (res : List (Nat × String))
    (epochs : List (String × Nat)) (mid : Nat) (key : List Nat) (name : String)
    (hres : res.lookup (xxhashSum64 key) = some name) :
    (Manager.mk nodes ring res epochs mid).distribute key =
      (nodes.lookup name, Manager.mk nodes ring res epochs mid) ∧
    ((Manager.mk nodes ring' res epochs mid).distribute key).1 =
      ((Manager.mk nodes ring res epochs mid).distribute key).1 ∧
    (nodes.lookup name = none →
      ((Manager.mk nodes ring res epochs mid).distribute key).1 = none) :=
  by
  refine ⟨?_, ?_, ?_⟩ <;> simp [Manager.distribute, hres]

/-- Witness for C5: hash of `[1]` is cached for a name absent from the node
map; two different ring contents give the same (nil) answer. -/
theorem distribute_repartition_override_witness :
    (Manager.mk [("a", ⟨"a", "a"⟩)] [⟨"a", "a"⟩] [(1, "gone")] [] 0).distribute
        [1] =
      (([("a", ⟨"a", "a"⟩)] : List (String × Node)).lookup "gone",
        Manager.mk [("a", ⟨"a", "a"⟩)] [⟨"a", "a"⟩] [(1, "gone")] [] 0) ∧
    ((Manager.mk [("a", ⟨"a", "a"⟩)] [] [(1, "gone")] [] 0).distribute [1]).1 =
      ((Manager.mk [("a", ⟨"a", "a"⟩)] [⟨"a", "a"⟩] [(1, "gone")] [] 0).distribute
          [1]).1 ∧
    ((Manager.mk [("a", ⟨"a", "a"⟩)] [⟨"a", "a"⟩] [(1, "gone")] [] 0).distribute
        [1]).1 = none :=
  have h := distribute_repartition_override [("a", ⟨"a", "a"⟩)] [⟨"a", "a"⟩] []
    [(1, "gone")] [] 0 [1] "gone" (by decide)
  ⟨h.1, h.2.1, h.2.2 (by decide)⟩

/-- Helper for C6: the node-building fold of the constructor keeps the node
map's keys and the collected members' names in sync. -/
theorem newManager_fold_inSync (urls : List String) :
    ∀ (ns : List (String × Node)) (ms : List Node),
      (∀ p ∈ ns, ∃ n ∈ ms, n.name = p.1) →
      (∀ n ∈ ms, ∃ p ∈ ns, p.1 = n.name) →
      (∀ p ∈ (urls.foldl
          (fun acc url =>
            let nodeName := Url2NodeName url
            if (acc.1.lookup nodeName).isSome then acc
            else ((nodeName, NewNode nodeName url) :: acc.1,
              acc.2 ++ [NewNode nodeName url]))
          (ns, ms)).1,
        ∃ n ∈ (urls.foldl
          (fun acc url =>
            let nodeName := Url2NodeName url
            if (acc.1.lookup nodeName).isSome then acc
            else ((nodeName, NewNode nodeName url) :: acc.1,
              acc.2 ++ [NewNode nodeName url]))
          (ns, ms)).2, n.name = p.1) ∧
      (∀ n ∈ (urls.foldl
          (fun acc url =>
            let nodeName := Url2NodeName url
            if (acc.1.lookup nodeName).isSome then acc
            else ((nodeName, NewNode nodeName url) :: acc.1,
              acc.2 ++ [NewNode nodeName url]))
          (ns, ms)).2,
        ∃ p ∈ (urls.foldl
          (fun acc url =>
            let nodeName := Url2NodeName url
            if (acc.1.lookup nodeName).isSome then acc
            else ((nodeName, NewNode nodeName url) :: acc.1,
              acc.2 ++ [NewNode nodeName url]))
          (ns, ms)).1, p.1 = n.name) :=
  by
  induction urls with
  | nil => intro ns ms h1 h2; exact ⟨h1, h2⟩
  | cons url rest ih =>
    intro ns ms h1 h2
    rw [List.foldl_cons]
    by_cases hc : ((ns.lookup (Url2NodeName url)).isSome : Prop)
    · simp only [hc, if_true]
      exact ih ns ms h1 h2
    · simp only [hc, if_false]
      refine ih _ _ ?_ ?_
      · intro p hp
        rcases List.mem_cons.mp hp with hp | hp
        · subst hp
          exact ⟨NewNode (Url2NodeName url) url, by simp, rfl⟩
        · obtain ⟨n, hn, hname⟩ := h1 p hp
          exact ⟨n, by simp [hn], hname⟩
      · intro n hn
        rcases List.mem_append.mp hn with hn | hn
        · obtain ⟨p, hp, hname⟩ := h2 n hn
          exact ⟨p, by simp [hp], hname⟩
        · rw [List.mem_singleton] at hn
          subst hn
          exact ⟨(Url2NodeName url, NewNode (Url2NodeName url) url), by simp, rfl⟩

/-- C6: the two-collection invariant — node-map keys and hash-ring member
names coincide — holds after construction and is preserved by every `Add`
and every `Remove`. -/
theorem manager_two_collection_invariant (urls : List String)
    (res : List (Nat × String)) (m : Manager) (url : String) :
    (NewManagerWithRepartition urls res).inSync ∧
    (m.inSync → (m.add url).inSync) ∧
    (m.inSync → (m.remove url).inSync) :=
  by
  refine ⟨?_, ?_, ?_⟩
  · have h := newManager_fold_inSync urls [] [] (by simp) (by simp)
    exact ⟨h.1, h.2⟩
  · intro hm
    rw [Manager.add]
    by_cases hc : ((m.nodes.lookup (Url2NodeName url)).isSome : Prop)
    · simpa [hc] using hm
    · simp only [hc, if_false]
      obtain ⟨h1, h2⟩ := hm
      constructor
      · intro p hp
        rcases List.mem_cons.mp hp with hp | hp
        · subst hp
          exact ⟨NewNode (Url2NodeName url) url, by simp, rfl⟩
        · obtain ⟨n, hn, hname⟩ := h1 p hp
          exact ⟨n, by simp [hn], hname⟩
      · intro n hn
        rcases List.mem_append.mp hn with hn | hn
        · obtain ⟨p, hp, hname⟩ := h2 n hn
          exact ⟨p, by simp [hp], hname⟩
        · rw [List.mem_singleton] at hn
          subst hn
          exact ⟨(Url2NodeName url, NewNode (Url2NodeName url) url), by simp, rfl⟩
  · intro hm
    rw [Manager.remove]
    by_cases hc : ((m.nodes.lookup (Url2NodeName url)).isSome : Prop)
    · simp only [hc, if_true]
      obtain ⟨h1, h2⟩ := hm
      constructor
      · intro p hp
        rw [List.mem_filter] at hp
        obtain ⟨hp, hpne⟩ := hp
        obtain ⟨n, hn, hname⟩ := h1 p hp
        refine ⟨n, ?_, hname⟩
        rw [List.mem_filter]
        refine ⟨hn, ?_⟩
        simpa [hname] using hpne
      · intro n hn
        rw [List.mem_filter] at hn
        obtain ⟨hn, hnne⟩ := hn
        obtain ⟨p, hp, hname⟩ := h2 n hn
        refine ⟨p, ?_, hname⟩
        rw [List.mem_filter]
        refine ⟨hp, ?_⟩
        simpa [hname] using hnne
    · simpa [hc] using hm

/-- Witness for C6: construction from two URLs, an add of a fresh URL and a
removal of an existing one, all checked in sync. -/
theorem manager_two_collection_invariant_witness :
    (NewManagerWithRepartition ["a", "b"] []).inSync ∧
    ((NewManager ["a"]).add "c").inSync ∧
    ((NewManager ["a"]).remove "a").inSync :=
  ⟨(manager_two_collection_invariant ["a", "b"] [] (NewManager []) "z").1,
   (manager_two_collection_invariant [] [] (NewManager ["a"]) "c").2.1
     (by decide),
   (manager_two_collection_invariant [] [] (NewManager ["a"]) "a").2.2
     (by decide)⟩

/-- Counterexample for C8 as stated: when the URL's derived name is already
present, `Add` is a no-op but `Remove` deletes the pre-existing node, so
`Add` then `Remove` does not restore the `List` observation. -/
theorem add_remove_not_list_identity :
    ((Manager.mk [("a", ⟨"a", "a"⟩)] [⟨"a", "a"⟩] [] [] 0).add "a"
        |>.remove "a").list ≠
      (Manager.mk [("a", ⟨"a", "a"⟩)] [⟨"a", "a"⟩] [] [] 0).list :=
  by decide

/-- Helper for C8: a key that `lookup` misses is removed by nothing — the
filter keeping all other keys is the identity. -/
theorem filter_ne_of_lookup_none (name : String) :
    ∀ (l : List (String × Node)), l.lookup name = none →
      l.filter (fun p => p.1 ≠ name) = l :=
  by
  intro l
  induction l with
  | nil => intro _; rfl
  | cons hd tl ih =>
    intro h
    rw [List.lookup] at h
    by_cases hc : (name == hd.1) = true
    · simp only [hc] at h
      exact absurd h (by simp)
    · rw [Bool.not_eq_true] at hc
      simp only [hc] at h
      have hne : hd.1 ≠ name := by
        intro he
        rw [he] at hc
        simp at hc
      rw [List.filter_cons, if_pos (by simp [hne]), ih h]

/-- C8 (amended): for every manager state and every URL whose derived node
name is not already present in the node map, `Add(url)` followed by
`Remove(url)` returns a manager indistinguishable by `List` from the
original. -/
theorem add_remove_list_identity (m : Manager) (url : String)
    (h : m.nodes.lookup (Url2NodeName url) = none) :
    ((m.add url).remove url).list = m.list :=
  by
  have hadd : m.add url =
      { m with
        nodes := (Url2NodeName url, NewNode (Url2NodeName url) url) :: m.nodes,
        hashRing := m.hashRing ++ [NewNode (Url2NodeName url) url] } := by
    rw [Manager.add]
    simp [h]
  rw [hadd, Manager.remove]
  have hlook : ((((Url2NodeName url, NewNode (Url2NodeName url) url) ::
      m.nodes).lookup (Url2NodeName url)).isSome : Prop) := by
    simp [List.lookup]
  rw [if_pos hlook]
  simp only [Manager.list]
  rw [List.filter_cons]
  have hself : (decide (((Url2NodeName url,
      NewNode (Url2NodeName url) url)).1 ≠ Url2NodeName url)) = false := by
    simp
  rw [hself, if_neg (by simp)]
  rw [filter_ne_of_lookup_none (Url2NodeName url) m.nodes h]

/-- Witness for C8 (amended): adding then removing a fresh URL restores the
`List` view of a one-node manager. -/
theorem add_remove_list_identity_witness :
    (((NewManager ["a"]).add "b").remove "b").list = (NewManager ["a"]).list :=
  add_remove_list_identity (NewManager ["a"]) "b" (by decide)

/-! ## Claims about the filter split -/

/-- C1: a range filter `[A, B]` with store boundary `M` (`MaxEpoch` ok) and
`A ≤ M < B` is split into a DB sub-filter covering exactly `[A, M]` and a
node sub-filter covering exactly `[M+1, B]`; the two ranges are disjoint and
their union is exactly `[A, B]`. -/
theorem splitLogFilter_straddle_exact (handler : EthLogsApiHandlerV2)
    (eth : RpcEthClient) (filter : FilterQuery) (A B M : Nat)
    (hme : handler.ms.maxEpoch = .ok (M, true))
    (hbh : filter.blockHash = none)
    (hfrom : filter.fromBlock = some (A : Int))
    (hto : filter.toBlock = some (B : Int))
    (hAM : A ≤ M) (hMB : M < B) :
    ∃ df ff, splitLogFilter handler eth filter = .ok (some df, some ff) ∧
      df.blockFrom = A ∧ df.blockTo = M ∧
      ff.fromBlock = some ((M + 1 : Nat) : Int) ∧
      ff.toBlock = some ((B : Nat) : Int) ∧
      (∀ n : Nat, ((df.blockFrom ≤ n ∧ n ≤ df.blockTo) ∨ (M + 1 ≤ n ∧ n ≤ B))
        ↔ (A ≤ n ∧ n ≤ B)) ∧
      (∀ n : Nat, ¬((df.blockFrom ≤ n ∧ n ≤ df.blockTo) ∧ (M + 1 ≤ n ∧ n ≤ B))) :=
  by
  refine ⟨ParseEthLogFilterV2 A M filter handler.networkId,
    { blockHash := none, fromBlock := some ((M + 1 : Nat) : Int),
      toBlock := filter.toBlock, addresses := filter.addresses,
      topics := filter.topics }, ?_, ?_, ?_, ?_, ?_, ?_, ?_⟩
  · simp only [splitLogFilter, hme, hbh, Option.isSome_none, Bool.not_true,
      Bool.false_eq_true, if_false, Bool.not_false, if_true,
      splitLogFilterByBlockRange, hfrom, hto]
    have h1 : ¬((A : Int) < 0 ∨ (B : Int) < 0) := by omega
    have h2 : ((A : Int).toNat = A) := Int.toNat_natCast A
    have h3 : ((B : Int).toNat = B) := Int.toNat_natCast B
    simp only [h1, if_false, h2, h3]
    have h4 : ¬(A > M) := by omega
    have h5 : ¬(B ≤ M) := by omega
    simp [h4, h5]
  · rfl
  · rfl
  · rfl
  · exact hto
  · intro n; simp only [ParseEthLogFilterV2]; omega
  · intro n; simp only [ParseEthLogFilterV2]; omega

/-- Witness for C1 at `A = 2`, `M = 5`, `B = 9`. -/
theorem splitLogFilter_straddle_exact_witness :
    ∃ df ff,
      splitLogFilter
        ⟨⟨fun _ => .ok 0, .ok (5, true), fun _ => .ok []⟩, 17⟩
        ⟨fun _ => .ok none, fun _ => .ok []⟩
        { blockHash := none, fromBlock := some 2, toBlock := some 9,
          addresses := [1], topics := [[3]] } = .ok (some df, some ff) ∧
      df.blockFrom = 2 ∧ df.blockTo = 5 ∧
      ff.fromBlock = some ((5 + 1 : Nat) : Int) ∧
      ff.toBlock = some ((9 : Nat) : Int) ∧
      (∀ n : Nat, ((df.blockFrom ≤ n ∧ n ≤ df.blockTo) ∨ (5 + 1 ≤ n ∧ n ≤ 9))
        ↔ (2 ≤ n ∧ n ≤ 9)) ∧
      (∀ n : Nat, ¬((df.blockFrom ≤ n ∧ n ≤ df.blockTo) ∧ (5 + 1 ≤ n ∧ n ≤ 9))) :=
  splitLogFilter_straddle_exact
    ⟨⟨fun _ => .ok 0, .ok (5, true), fun _ => .ok []⟩, 17⟩
    ⟨fun _ => .ok none, fun _ => .ok []⟩
    { blockHash := none, fromBlock := some 2, toBlock := some 9,
      addresses := [1], topics := [[3]] }
    2 9 5 rfl rfl rfl rfl (by decide) (by decide)

/-- C10: in the straddling split, the node sub-filter is the original filter
with only `fromBlock` changed to `maxBlock + 1`; `addresses`, `topics` and
`toBlock` are passed through unchanged. -/
theorem splitLogFilterByBlockRange_frame (handler : EthLogsApiHandlerV2)
    (filter : FilterQuery) (A B M : Nat)
    (hbh : filter.blockHash = none)
    (hfrom : filter.fromBlock = some (A : Int))
    (hto : filter.toBlock = some (B : Int))
    (hAM : A ≤ M) (hMB : M < B) :
    splitLogFilterByBlockRange handler filter M =
      .ok (some (ParseEthLogFilterV2 A M filter handler.networkId),
        some { filter with fromBlock := some ((M + 1 : Nat) : Int) }) :=
  by
  simp only [splitLogFilterByBlockRange, hfrom, hto]
  have h1 : ¬((A : Int) < 0 ∨ (B : Int) < 0) := by omega
  have h2 : ((A : Int).toNat = A) := Int.toNat_natCast A
  have h3 : ((B : Int).toNat = B) := Int.toNat_natCast B
  simp only [h1, if_false, h2, h3]
  have h4 : ¬(A > M) := by omega
  have h5 : ¬(B ≤ M) := by omega
  simp only [h4, if_false, h5]
  simp [hbh, hto]

/-- Witness for C10 at `A = 0`, `M = 3`, `B = 7`. -/
theorem splitLogFilterByBlockRange_frame_witness :
    splitLogFilterByBlockRange
      ⟨⟨fun _ => .ok 0, .ok (3, true), fun _ => .ok []⟩, 1⟩
      { blockHash := none, fromBlock := some 0, toBlock := some 7,
        addresses := [5, 6], topics := [[9]] } 3 =
      .ok (some (ParseEthLogFilterV2 0 3
          { blockHash := none, fromBlock := some 0, toBlock := some 7,
            addresses := [5, 6], topics := [[9]] } 1),
        some { blockHash := none, fromBlock := some ((3 + 1 : Nat) : Int),
               toBlock := some 7, addresses := [5, 6], topics := [[9]] }) :=
  splitLogFilterByBlockRange_frame
    ⟨⟨fun _ => .ok 0, .ok (3, true), fun _ => .ok []⟩, 1⟩
    { blockHash := none, fromBlock := some 0, toBlock := some 7,
      addresses := [5, 6], topics := [[9]] }
    0 7 3 rfl rfl rfl (by decide) (by decide)

/-- C7: when the live node cannot resolve a block-hash filter's hash
(`BlockByHash` returns a nil block without error), the split fails with the
unknown-block error; the guarded query returns that error no matter what the
store's `GetLogsV2` oracle is (no DB query is issued), and `GetLogs` returns
it after exactly one attempt (no retry). -/
theorem getLogs_unknownBlock (handler : EthLogsApiHandlerV2)
    (eth : RpcEthClient) (filter : FilterQuery)
    (g : LogFilterV2 → Except Err (List StoredLog))
    (timedOut : Nat → Bool) (fuel : Nat) (M v0 hsh : Nat)
    (hme : handler.ms.maxEpoch = .ok (M, true))
    (hbh : filter.blockHash = some hsh)
    (hnode : eth.blockByHash hsh = .ok none)
    (hver : handler.ms.reorgVersions 0 = .ok v0) :
    splitLogFilter handler eth filter = .error .unknownBlock ∧
    getLogsReorgGuard { handler with ms := { handler.ms with getLogsV2 := g } }
      eth filter = ⟨[], false, some .unknownBlock⟩ ∧
    GetLogs handler eth filter timedOut (fuel + 1) =
      some (⟨[], false, some .unknownBlock⟩, 1) :=
  by
  have hsplit : splitLogFilter handler eth filter = .error .unknownBlock := by
    simp [splitLogFilter, hme, hbh, splitLogFilterByBlockHash, hnode]
  have hsplit2 :
      splitLogFilter { handler with ms := { handler.ms with getLogsV2 := g } }
        eth filter = .error .unknownBlock := by
    simp [splitLogFilter, hme, hbh, splitLogFilterByBlockHash, hnode]
  have hguard : getLogsReorgGuard handler eth filter =
      ⟨[], false, some .unknownBlock⟩ := by
    simp [getLogsReorgGuard, hsplit]
  refine ⟨hsplit, by simp [getLogsReorgGuard, hsplit2], ?_⟩
  simp [GetLogs, hver, getLogsLoop, hguard]

/-- Witness for C7: a two-node-resolvable store boundary, a hash the node
cannot resolve, and an arbitrary DB oracle. -/
theorem getLogs_unknownBlock_witness :
    splitLogFilter ⟨⟨fun _ => .ok 4, .ok (10, true), fun _ => .ok []⟩, 2⟩
      ⟨fun _ => .ok none, fun _ => .ok []⟩
      { blockHash := some 77 } = .error .unknownBlock ∧
    getLogsReorgGuard
      ⟨⟨fun _ => .ok 4, .ok (10, true),
        fun _ => .ok [⟨⟨1, 1⟩⟩]⟩, 2⟩
      ⟨fun _ => .ok none, fun _ => .ok []⟩
      { blockHash := some 77 } = ⟨[], false, some .unknownBlock⟩ ∧
    GetLogs ⟨⟨fun _ => .ok 4, .ok (10, true), fun _ => .ok []⟩, 2⟩
      ⟨fun _ => .ok none, fun _ => .ok []⟩
      { blockHash := some 77 } (fun _ => false) (3 + 1) =
      some (⟨[], false, some .unknownBlock⟩, 1) :=
  getLogs_unknownBlock
    ⟨⟨fun _ => .ok 4, .ok (10, true), fun _ => .ok []⟩, 2⟩
    ⟨fun _ => .ok none, fun _ => .ok []⟩
    { blockHash := some 77 }
    (fun _ => .ok [⟨⟨1, 1⟩⟩]) (fun _ => false) 3 10 4 77
    rfl rfl rfl rfl

/-! ## Claims about the reorg-guarded retry loop -/

/-- C2: with reorg versions `v0, v1 (≠ v0), v1` observed at the three
checkpoints and the deadline not yet elapsed after the first attempt, the
retry loop performs exactly two attempts and returns the second attempt's
result; and an attempt after which the version read equals the version read
before it returns that attempt's merged result immediately (here: the loop
resumed at version `v1` after one attempt returns attempt two's result). -/
theorem getLogsLoop_reorg_retry (guard : Nat → GetLogsResult)
    (versions : Nat → Except Err Nat) (timedOut : Nat → Bool)
    (v0 v1 : Nat) (l0 l1 : List Log) (b0 b1 : Bool) (fuel : Nat)
    (hg0 : guard 0 = ⟨l0, b0, none⟩)
    (hg1 : guard 1 = ⟨l1, b1, none⟩)
    (hv0 : versions 0 = .ok v1)
    (hne : v1 ≠ v0)
    (hv1 : versions 1 = .ok v1)
    (ht : timedOut 0 = false) :
    getLogsLoop guard versions timedOut v0 0 (fuel + 2) =
      some (⟨l1, b1, none⟩, 2) ∧
    getLogsLoop guard versions timedOut v1 1 (fuel + 1) =
      some (⟨l1, b1, none⟩, 2) :=
  by
  have h2 : getLogsLoop guard versions timedOut v1 1 (fuel + 1) =
      some (⟨l1, b1, none⟩, 2) := by
    simp [getLogsLoop, hg1, hv1]
  refine ⟨?_, h2⟩
  have h1 : getLogsLoop guard versions timedOut v0 0 (fuel + 1 + 1) =
      getLogsLoop guard versions timedOut v1 1 (fuel + 1) := by
    simp [getLogsLoop, hg0, hv0, hne, ht]
  calc getLogsLoop guard versions timedOut v0 0 (fuel + 2)
      = getLogsLoop guard versions timedOut v1 1 (fuel + 1) := h1
    _ = some (⟨l1, b1, none⟩, 2) := h2

/-- Witness for C2: versions 5, 9, 9; two distinct attempt results. -/
theorem getLogsLoop_reorg_retry_witness :
    getLogsLoop (fun i => if i = 0 then ⟨[⟨1, 0⟩], true, none⟩
        else ⟨[⟨2, 0⟩], false, none⟩)
      (fun i => if i = 0 then .ok 9 else .ok 9) (fun _ => false)
      5 0 (0 + 2) = some (⟨[⟨2, 0⟩], false, none⟩, 2) ∧
    getLogsLoop (fun i => if i = 0 then ⟨[⟨1, 0⟩], true, none⟩
        else ⟨[⟨2, 0⟩], false, none⟩)
      (fun i => if i = 0 then .ok 9 else .ok 9) (fun _ => false)
      9 1 (0 + 1) = some (⟨[⟨2, 0⟩], false, none⟩, 2) :=
  getLogsLoop_reorg_retry
    (fun i => if i = 0 then ⟨[⟨1, 0⟩], true, none⟩ else ⟨[⟨2, 0⟩], false, none⟩)
    (fun i => if i = 0 then .ok 9 else .ok 9) (fun _ => false)
    5 9 [⟨1, 0⟩] [⟨2, 0⟩] true false 0
    rfl rfl rfl (by decide) rfl rfl

/-- C3: if the version read after an attempt differs from the version
recorded before it and the deadline has elapsed at that point, the loop
returns the distinct reorg-timeout error with no log data and a false
hit-store flag. -/
theorem getLogsLoop_timeout (guard : Nat → GetLogsResult)
    (versions : Nat → Except Err Nat) (timedOut : Nat → Bool)
    (lastVer i fuel v : Nat) (l : List Log) (b : Bool)
    (hg : guard i = ⟨l, b, none⟩)
    (hv : versions i = .ok v)
    (hne : v ≠ lastVer)
    (ht : timedOut i = true) :
    getLogsLoop guard versions timedOut lastVer i (fuel + 1) =
      some (⟨[], false, some .getLogsTimeout⟩, i + 1) :=
  by
  simp [getLogsLoop, hg, hv, hne, ht]

/-- Witness for C3: the attempt succeeds with a non-empty result, the
version moved from 5 to 6, and the deadline has elapsed. -/
theorem getLogsLoop_timeout_witness :
    getLogsLoop (fun _ => ⟨[⟨3, 3⟩], true, none⟩) (fun _ => .ok 6)
      (fun _ => true) 5 0 (7 + 1) =
      some (⟨[], false, some .getLogsTimeout⟩, 0 + 1) :=
  getLogsLoop_timeout (fun _ => ⟨[⟨3, 3⟩], true, none⟩) (fun _ => .ok 6)
    (fun _ => true) 5 0 7 6 [⟨3, 3⟩] true rfl rfl (by decide) rfl

/-- Helper for C9: every `some` outcome of the retry loop that carries an
error carries the empty log list and a false hit-store flag. -/
theorem getLogsLoop_no_partial (guard : Nat → GetLogsResult)
    (versions : Nat → Except Err Nat) (timedOut : Nat → Bool) :
    ∀ (fuel lastVer i : Nat) (r : GetLogsResult) (n : Nat) (e : Err),
      getLogsLoop guard versions timedOut lastVer i fuel = some (r, n) →
      r.err = some e → r.logs = [] ∧ r.hitStore = false :=
  by
  intro fuel
  induction fuel with
  | zero =>
    intro lastVer i r n e h _
    simp [getLogsLoop] at h
  | succ fuel ih =>
    intro lastVer i r n e h herr
    rw [getLogsLoop] at h
    split at h
    · injection h with h1
      injection h1 with h2 h3
      subst h2
      exact ⟨rfl, rfl⟩
    · split at h
      · injection h with h1
        injection h1 with h2 h3
        subst h2
        exact ⟨rfl, rfl⟩
      · split at h
        · injection h with h1
          injection h1 with h2 h3
          subst h2
          simp at herr
        · split at h
          · injection h with h1
            injection h1 with h2 h3
            subst h2
            exact ⟨rfl, rfl⟩
          · exact ih _ _ _ _ _ h herr

/-- C9: whenever `GetLogs` returns with a non-nil error — from the version
reads, the split, the DB sub-query or the node sub-query — the returned log
slice is empty and the hit-store flag is false. -/
theorem getLogs_error_no_partial (handler : EthLogsApiHandlerV2)
    (eth : RpcEthClient) (filter : FilterQuery) (timedOut : Nat → Bool)
    (fuel : Nat) (r : GetLogsResult) (n : Nat) (e : Err)
    (h : GetLogs handler eth filter timedOut fuel = some (r, n))
    (herr : r.err = some e) :
    r.logs = [] ∧ r.hitStore = false :=
  by
  rw [GetLogs] at h
  split at h
  · injection h with h1
    injection h1 with h2 h3
    subst h2
    exact ⟨rfl, rfl⟩
  · exact getLogsLoop_no_partial _ _ _ _ _ _ _ _ _ h herr

/-- Witness for C9: the very first reorg-version read fails. -/
theorem getLogs_error_no_partial_witness :
    GetLogsResult.logs ⟨[], false, some (.other "db down")⟩ = [] ∧
    GetLogsResult.hitStore ⟨[], false, some (.other "db down")⟩ = false :=
  getLogs_error_no_partial
    ⟨⟨fun _ => .error (.other "db down"), .ok (0, true), fun _ => .ok []⟩, 1⟩
    ⟨fun _ => .ok none, fun _ => .ok []⟩ {} (fun _ => false) 2
    ⟨[], false, some (.other "db down")⟩ 0 (.other "db down") rfl rfl
